import Mathlib

/-!
Verification of the EventBus header (ComparableCallback, SimpleUserEventHandler,
EventBus) against its natural-language specification.

The C++ source is shallowly embedded:
* machine addresses (function pointers, object pointers, member-pointer bit
  patterns) are modelled as `Nat`; a nullable pointer is an `Option Nat` with
  `none` standing for `nullptr`;
* `std::type_index` values are modelled as `Nat` tags (`typeid(void)` is `0`);
* `std::function<U(T&)>` is modelled as `Option (T → U × T)` — the wrapped
  body mutates the argument and produces a `U`; an empty `std::function`
  is `none`;
* `std::sort` is modelled by its contract in the C++ standard: the call
  rearranges the range into SOME permutation that is sorted with respect to
  the comparator.  The standard does NOT promise stability, so the embedding
  is parametric in a sorting function `sf` constrained by `SortSpec`.
-/

namespace EventBusSpec

/-- Machine address (a function pointer value, an object address, or the bit
pattern of a pointer-to-member, reinterpreted).  `nullptr` is `Option.none`
at use sites. -/
abbrev Addr := Nat

/-- Model of `std::type_index`: an opaque tag deciding type identity. -/
abbrev TypeIdx := Nat

/-- Tag used for `typeid(void)` in the free-function constructor. -/
def voidTypeIdx : TypeIdx := 0

/-- Model of `ComparableCallback::CallbackType` (`enum class { Function, Method }`). -/
inductive CallbackType where
  | Function
  | Method
deriving DecidableEq

/-- Model of `ComparableCallback::BaseInfo`: the identity triple of a bound
method — object address (`instance`), the bit pattern of the member pointer
(`method_ptr`), and the declared owner type (`instance_type`).
`BaseInfo::operator==` compares all three fields, which is exactly the
derived equality of this structure. -/
structure BaseInfo where
  instance_ : Option Addr
  method_ptr : Option Addr
  instance_type : TypeIdx
deriving DecidableEq

/-- Identity fields of a `ComparableCallback<T, U>`: the discriminating tag
`callback_type`, the free-function pointer `func_ptr`, and the bound-method
triple `method_info`.  (The invocation thunk `func` is kept separately in
`CC` because it does not take part in equality.) -/
structure CCIdent where
  callback_type : CallbackType
  func_ptr : Option Addr
  method_info : BaseInfo
deriving DecidableEq

/-- Model of `ComparableCallback::operator==`: different variants are never
equal; two `Function` callbacks compare by `func_ptr` alone; two `Method`
callbacks compare by `method_info` alone. -/
def ccEq (a b : CCIdent) : Bool :=
  if a.callback_type ≠ b.callback_type then false
  else if a.callback_type = CallbackType.Function then decide (a.func_ptr = b.func_ptr)
  else decide (a.method_info = b.method_info)

/-- Model of a full `ComparableCallback<T, U>` value: identity fields plus
the stored `std::function<U(T&)>` (`none` when empty/released). -/
structure CC (T U : Type) where
  ident : CCIdent
  func : Option (T → U × T)

/-- Model of `make_func(void (*func)(EventType&))` and of the underlying
free-function constructor: `callback_type = Function`, `func_ptr` holds the
function address, `method_info` is `(nullptr, nullptr, typeid(void))`, and
`func` wraps the same function.  A C++ function pointer is modelled as its
address `p` together with its meaning `f`; distinct functions have distinct
addresses. -/
def make_func {T U : Type} (p : Addr) (f : T → U × T) : CC T U :=
  { ident := { callback_type := CallbackType.Function
               func_ptr := some p
               method_info := { instance_ := none, method_ptr := none, instance_type := voidTypeIdx } }
    func := some f }

/-- Model of `make_func(U (C::*)(T&), C* instance)` (non-const overload):
`callback_type = Method`, `func_ptr = nullptr`, `method_info` holds the
object address `inst`, the member-pointer bit pattern `m`, and the tag `cty`
of `typeid(C)`; `func` is the closure invoking the method on the object. -/
def make_method_func {T U : Type} (m : Addr) (inst : Addr) (cty : TypeIdx) (f : T → U × T) : CC T U :=
  { ident := { callback_type := CallbackType.Method
               func_ptr := none
               method_info := { instance_ := some inst, method_ptr := some m, instance_type := cty } }
    func := some f }

/-- Model of `make_const_func`: identical identity fields to the non-const
overload (the `const_cast` erases constness of the object address). -/
def make_const_func {T U : Type} (m : Addr) (inst : Addr) (cty : TypeIdx) (f : T → U × T) : CC T U :=
  { ident := { callback_type := CallbackType.Method
               func_ptr := none
               method_info := { instance_ := some inst, method_ptr := some m, instance_type := cty } }
    func := some f }

/-- Model of `ComparableCallback::invoke(T& arg)`: if the stored
`std::function` is non-empty it is called on the argument; otherwise the
call is a no-op.  `invoke` is declared `void` in the source, so any value
produced by the wrapped function is discarded; the model returns the
(possibly) mutated event. -/
def invoke {T U : Type} (c : CC T U) (ev : T) : T :=
  match c.func with
  | some f => (f ev).2
  | none => ev

/-- Model of `ComparableCallback::release()`: sets `func = nullptr` and
`func_ptr = nullptr`; `callback_type` and `method_info` are untouched. -/
def release {T U : Type} (c : CC T U) : CC T U :=
  { ident := { callback_type := c.ident.callback_type
               func_ptr := none
               method_info := c.ident.method_info }
    func := none }

/-- Model of the copy constructor / copy assignment: every field is copied. -/
def ccCopy {T U : Type} (c : CC T U) : CC T U :=
  { ident := { callback_type := c.ident.callback_type
               func_ptr := c.ident.func_ptr
               method_info := c.ident.method_info }
    func := c.func }

/-- Identity fields of a moved-from `ComparableCallback` (move constructor
and move assignment both end with `other.func_ptr = nullptr`; the
`method_info` members are pointer/index copies, so they keep their values). -/
def movedFromIdent (i : CCIdent) : CCIdent :=
  { callback_type := i.callback_type
    func_ptr := none
    method_info := i.method_info }

/-- Reflexivity of the source equality operator. -/
theorem ccEq_refl (i : CCIdent) : ccEq i i = true := by
  cases hi : i.callback_type <;> simp [ccEq, hi]

/-- Sample wrapped body used by concrete witnesses. -/
def fIdInt : Int → Unit × Int := fun n => ((), n)

/-- C6: callback identity equality is decided exactly by variant and identity
fields — `operator==` returns true iff both sides are the same variant and,
for free functions, the `func_ptr` values agree, or, for bound methods, the
full `method_info` triples agree; consequently `make_func` of the same
function address is equal to itself, differs from a different address, and a
bound-method wrapper equals another wrapper of the same method on the same
object but differs when the object or the method differs (the wrapped
behaviours `f`, `g` never matter). -/
theorem c6_identity_equality :
    (∀ a b : CCIdent, ccEq a b = true ↔
      (a.callback_type = b.callback_type ∧
        ((a.callback_type = CallbackType.Function ∧ a.func_ptr = b.func_ptr) ∨
         (a.callback_type = CallbackType.Method ∧ a.method_info = b.method_info)))) ∧
    (∀ (T U : Type) (p : Addr) (f g : T → U × T),
      ccEq (make_func p f).ident (make_func p g).ident = true) ∧
    (∀ (T U : Type) (p q : Addr) (f g : T → U × T), p ≠ q →
      ccEq (make_func p f).ident (make_func q g).ident = false) ∧
    (∀ (T U : Type) (m i : Addr) (c : TypeIdx) (f g : T → U × T),
      ccEq (make_method_func m i c f).ident (make_method_func m i c g).ident = true) ∧
    (∀ (T U : Type) (m i j : Addr) (c : TypeIdx) (f g : T → U × T), i ≠ j →
      ccEq (make_method_func m i c f).ident (make_method_func m j c g).ident = false) ∧
    (∀ (T U : Type) (m n i : Addr) (c : TypeIdx) (f g : T → U × T), m ≠ n →
      ccEq (make_method_func m i c f).ident (make_method_func n i c g).ident = false) ∧
    (∀ (T U : Type) (m i : Addr) (c : TypeIdx) (f g : T → U × T),
      ccEq (make_const_func m i c f).ident (make_method_func m i c g).ident = true) := by
  refine ⟨?_, ?_, ?_, ?_, ?_, ?_, ?_⟩
  · intro a b
    cases ha : a.callback_type <;> cases hb : b.callback_type <;>
      simp [ccEq, ha, hb]
  · intro T U p f g; simp [ccEq, make_func]
  · intro T U p q f g h; simp [ccEq, make_func, h]
  · intro T U m i c f g; simp [ccEq, make_method_func]
  · intro T U m i j c f g h
    simp [ccEq, make_method_func, h]
  · intro T U m n i c f g h
    simp [ccEq, make_method_func, h]
  · intro T U m i c f g; simp [ccEq, make_const_func, make_method_func]

/-- C6 witness: the equality characterisation evaluated at concrete callbacks
(free functions at addresses 1 and 2; a method with bit pattern 7 on objects
3 and 4 of type tag 9). -/
theorem c6_identity_equality_witness :
    ccEq (make_func 1 fIdInt).ident (make_func 1 fIdInt).ident = true ∧
    ccEq (make_func 1 fIdInt).ident (make_func 2 fIdInt).ident = false ∧
    ccEq (make_method_func 7 3 9 fIdInt).ident (make_method_func 7 3 9 fIdInt).ident = true ∧
    ccEq (make_method_func 7 3 9 fIdInt).ident (make_method_func 7 4 9 fIdInt).ident = false ∧
    ccEq (make_method_func 7 3 9 fIdInt).ident (make_method_func 8 3 9 fIdInt).ident = false :=
  ⟨c6_identity_equality.2.1 Int Unit 1 fIdInt fIdInt,
   c6_identity_equality.2.2.1 Int Unit 1 2 fIdInt fIdInt (by decide),
   c6_identity_equality.2.2.2.1 Int Unit 7 3 9 fIdInt fIdInt,
   c6_identity_equality.2.2.2.2.1 Int Unit 7 3 4 9 fIdInt fIdInt (by decide),
   c6_identity_equality.2.2.2.2.2.1 Int Unit 7 8 3 9 fIdInt fIdInt (by decide)⟩

/-- C7 counterexample: the claim says a released callback still compares
equal to a fresh callback built from the same original identity fields in
the free-function variant as well; but `release()` clears `func_ptr`, which
is precisely the identity field of the free-function variant, so the
released callback at address 5 no longer equals a fresh `make_func` of the
same function. -/
theorem c7_counterexample :
    ccEq (release (make_func 5 fIdInt)).ident (make_func 5 fIdInt).ident = false := by
  decide

/-- C7 amended: after `release()`, `invoke` is a no-op that leaves the event
unchanged; for the bound-method variant equality against any other callback
is unaffected (the compared `method_info` fields are untouched); for the
free-function variant, however, `release()` clears `func_ptr` — the identity
field itself — so the released callback compares equal to no freshly
constructed free-function callback (whose `func_ptr` is a real, non-null
address). -/
theorem c7_amended (T U : Type) (c : CC T U) (ev : T) :
    invoke (release c) ev = ev ∧
    (c.ident.callback_type = CallbackType.Method →
      ∀ d : CCIdent, ccEq (release c).ident d = ccEq c.ident d) ∧
    (release c).ident.func_ptr = none ∧
    (∀ (p : Addr) (g : T → U × T), ccEq (release c).ident (make_func p g).ident = false) := by
  refine ⟨rfl, ?_, rfl, ?_⟩
  · intro hm d
    simp [ccEq, release, hm]
  · intro p g
    cases hc : c.ident.callback_type <;> simp [ccEq, release, make_func, hc]

/-- C7 witness: the amended statement evaluated on a released free-function
callback at address 5 (no-op invocation on event 3, cleared pointer, not
equal to the fresh address-9 callback) and on a released bound-method
callback (equality behaviour unchanged against a sample identity). -/
theorem c7_amended_witness :
    invoke (release (make_func 5 fIdInt)) 3 = 3 ∧
    (release (make_func 5 fIdInt)).ident.func_ptr = none ∧
    ccEq (release (make_func 5 fIdInt)).ident (make_func 9 fIdInt).ident = false ∧
    ccEq (release (make_method_func 7 3 9 fIdInt)).ident (make_method_func 7 3 9 fIdInt).ident =
      ccEq (make_method_func 7 3 9 fIdInt).ident (make_method_func 7 3 9 fIdInt).ident :=
  ⟨(c7_amended Int Unit (make_func 5 fIdInt) 3).1,
   (c7_amended Int Unit (make_func 5 fIdInt) 3).2.2.1,
   (c7_amended Int Unit (make_func 5 fIdInt) 3).2.2.2 9 fIdInt,
   (c7_amended Int Unit (make_method_func 7 3 9 fIdInt) 0).2.1 rfl
     (make_method_func 7 3 9 fIdInt).ident⟩

/-- C10: copying a `ComparableCallback` copies every field, so a copy
compares equal to the original; after a move, the moved-from value has
`func_ptr = nullptr`, so a moved-from free-function callback (whose former
pointer was a real address) no longer compares equal to its former value or
to its copies, while a moved-from bound-method callback keeps its
`method_info` identity fields and still compares equal to its copies. -/
theorem c10_copy_move_equality (T U : Type) (c : CC T U) :
    (ccCopy c).ident = c.ident ∧
    ccEq (ccCopy c).ident c.ident = true ∧
    (movedFromIdent c.ident).func_ptr = none ∧
    (∀ p : Addr, c.ident.callback_type = CallbackType.Function → c.ident.func_ptr = some p →
      ccEq (movedFromIdent c.ident) c.ident = false ∧
      ccEq (movedFromIdent c.ident) (ccCopy c).ident = false) ∧
    (c.ident.callback_type = CallbackType.Method →
      ccEq (movedFromIdent c.ident) (ccCopy c).ident = true) := by
  have hcopy : (ccCopy c).ident = c.ident := rfl
  refine ⟨hcopy, ?_, rfl, ?_, ?_⟩
  · rw [hcopy]; exact ccEq_refl c.ident
  · intro p hf hp
    constructor <;> simp [ccEq, movedFromIdent, ccCopy, hf, hp]
  · intro hm
    simp [ccEq, movedFromIdent, ccCopy, hm]

/-- C10 witness: the copy/move facts evaluated on the free-function callback
at address 5 and on a bound-method callback. -/
theorem c10_copy_move_equality_witness :
    ccEq (ccCopy (make_func 5 fIdInt)).ident (make_func 5 fIdInt).ident = true ∧
    ccEq (movedFromIdent (make_func 5 fIdInt).ident) (make_func 5 fIdInt).ident = false ∧
    ccEq (movedFromIdent (make_method_func 7 3 9 fIdInt).ident)
      (ccCopy (make_method_func 7 3 9 fIdInt)).ident = true :=
  ⟨(c10_copy_move_equality Int Unit (make_func 5 fIdInt)).2.1,
   ((c10_copy_move_equality Int Unit (make_func 5 fIdInt)).2.2.2.1 5 rfl rfl).1,
   (c10_copy_move_equality Int Unit (make_method_func 7 3 9 fIdInt)).2.2.2.2 rfl⟩

/-- Model of `enum class EventPriority` (values 0x1B, 0x2B, 0x3B, 0x4B, 0x5B). -/
inductive EventPriority where
  | VeryLow
  | Low
  | Default
  | High
  | VeryHigh
deriving DecidableEq

/-- Numeric value of a priority as in the source enum (`static_cast<int>`):
0x1B = 27, 0x2B = 43, 0x3B = 59, 0x4B = 75, 0x5B = 91. -/
def prioVal : EventPriority → Nat
  | EventPriority.VeryLow => 27
  | EventPriority.Low => 43
  | EventPriority.Default => 59
  | EventPriority.High => 75
  | EventPriority.VeryHigh => 91

/-- Registry key: model of `std::type_index(typeid(TypeEvent))`.  Two events
have the same key iff they are the same declared type. -/
abbrev EventKey := Nat

/-- Behaviour of a subscriber body when it is invoked during `Publish`.  The
C++ callback receives the event by reference and may reenter the bus (the
two-phase publish exists exactly to allow this); the model closes the
reentrant actions relevant to the claims: mutate the event, additionally
subscribe a new callback (to any event type), or additionally unsubscribe a
callback. -/
inductive Behavior (E : Type) where
  | act (f : E → E)
  | subscribing (f : E → E) (k : EventKey) (cb : CCIdent) (nb : Behavior E) (p : EventPriority)
  | unsubscribing (f : E → E) (k : EventKey) (target : CCIdent)

/-- A `ComparableCallback<TypeEvent, void>` as stored in a handler list:
identity fields plus the stored `std::function` body (`none` if empty). -/
structure BusCC (E : Type) where
  ident : CCIdent
  func : Option (Behavior E)

/-- One element of `SimpleUserEventHandler::callbacks_`:
a `(callback, priority)` pair. -/
abbrev Entry (E : Type) := BusCC E × EventPriority

/-- Model of `SimpleUserEventHandler::callbacks_` (an ordered `std::vector`). -/
abbrev HandlerList (E : Type) := List (Entry E)

/-- Model of `EventBus::handlers`: the registry mapping each event type key
to its handler list (`std::unordered_map<std::type_index, unique_ptr<...>>`,
read through `find` and written through `operator[]`). -/
abbrev Bus (E : Type) := List (EventKey × HandlerList E)

/-- Lookup of a key in the registry (`handlers.find(index)`). -/
def lookupL {A : Type} : List (EventKey × A) → EventKey → Option A
  | [], _ => none
  | (k₁, v) :: rest, k => if k = k₁ then some v else lookupL rest k

/-- Replacement of the value bound to a key (mutation of the mapped-to
handler object through `handlers[index]`); no change if the key is absent. -/
def updateL {A : Type} : List (EventKey × A) → EventKey → A → List (EventKey × A)
  | [], _, _ => []
  | (k₁, v) :: rest, k, w => if k = k₁ then (k, w) :: rest else (k₁, v) :: updateL rest k w

/-- The comparator passed to `std::sort` in `add_callback`, as a relation:
`static_cast<int>(a.second) > static_cast<int>(b.second)` used as "a goes
before b", whose induced sortedness is non-increasing priority. -/
def relE {E : Type} (a b : Entry E) : Prop := prioVal b.2 ≤ prioVal a.2

instance {E : Type} : DecidableRel (@relE E) := fun _ _ => Nat.decLe _ _

instance {E : Type} : IsTotal (Entry E) relE :=
  ⟨fun a b => Nat.le_total (prioVal b.2) (prioVal a.2)⟩

instance {E : Type} : IsTrans (Entry E) relE :=
  ⟨fun _ _ _ h₁ h₂ => le_trans h₂ h₁⟩

/-- Contract of the `std::sort` call in `add_callback`: the result is a
permutation of the input that is sorted for the comparator.  This is all
the C++ standard guarantees — `std::sort` is not required to be stable, so
any function satisfying `SortSpec` is a possible behaviour of the code. -/
def SortSpec {E : Type} (sf : HandlerList E → HandlerList E) : Prop :=
  ∀ l, List.Perm (sf l) l ∧ List.Pairwise relE (sf l)

/-- A concrete conforming sort (used to instantiate witnesses): plain
insertion sort for the comparator. -/
def sortM {E : Type} (l : HandlerList E) : HandlerList E :=
  List.insertionSort relE l

/-- Another concrete conforming sort: reverse the list first, then insertion
sort.  Its output is sorted and a permutation of the input, so it satisfies
everything the C++ standard promises of `std::sort`, yet it reorders
equal-priority entries. -/
def revSort {E : Type} (l : HandlerList E) : HandlerList E :=
  List.insertionSort relE l.reverse

/-- Model of `SimpleUserEventHandler::add_callback`: append the pair, then
re-sort the whole vector with `std::sort` (any `SortSpec`-conforming `sf`). -/
def add_callback {E : Type} (sf : HandlerList E → HandlerList E)
    (l : HandlerList E) (cb : BusCC E) (p : EventPriority) : HandlerList E :=
  sf (l ++ [(cb, p)])

/-- Model of the linear scan in `find_callback_it`: index of the first entry
whose callback compares equal to the argument (`it->first == callback`),
`none` when no entry matches (`callbacks_.end()`). -/
def find_callback {E : Type} (t : CCIdent) : HandlerList E → Option Nat
  | [] => none
  | e :: rest => if ccEq e.1.ident t then some 0 else (find_callback t rest).map (· + 1)

/-- Model of the effect of `SimpleUserEventHandler::delete_callback` on the
vector (ignoring its locking, treated separately below): erase the first
entry whose callback compares equal to the argument, keep the rest. -/
def delete_callback {E : Type} (t : CCIdent) : HandlerList E → HandlerList E
  | [] => []
  | e :: rest => if ccEq e.1.ident t then rest else e :: delete_callback t rest

/-- Model of `EventBus::Subscribe<TypeEvent>`: under the registry lock,
create the handler list for the key if absent, then `add_callback` on it. -/
def Subscribe {E : Type} (sf : HandlerList E → HandlerList E)
    (k : EventKey) (cb : BusCC E) (p : EventPriority) (bus : Bus E) : Bus E :=
  match lookupL bus k with
  | none => (k, add_callback sf [] cb p) :: bus
  | some l => updateL bus k (add_callback sf l cb p)

/-- Model of the functional behaviour of `EventBus::Unsubscribe<TypeEvent>`
(as it runs under the no-op `std::null_mutex` policy; the re-entrant lock
taken inside `delete_callback` is modelled separately): if no list exists
for the key, return `false` and leave the bus unchanged; otherwise run
`delete_callback` on that list and return `true`. -/
def Unsubscribe {E : Type} (k : EventKey) (t : CCIdent) (bus : Bus E) : Bus E × Bool :=
  match lookupL bus k with
  | none => (bus, false)
  | some l => (updateL bus k (delete_callback t l), true)

/-- State threaded through the delivery loop of `Publish`: the live bus (a
callback may reenter `Subscribe`/`Unsubscribe`), the event instance (passed
by reference to every callback), the trace of invocations actually performed
(identity and priority of each invoked entry, in order), and the log of keys
passed to `Subscribe` calls made from inside callbacks. -/
structure DState (E : Type) where
  bus : Bus E
  ev : E
  trace : List (CCIdent × EventPriority)
  log : List EventKey

/-- One iteration of the delivery loop: `callback.invoke(arg)` on a
snapshot entry.  An empty `std::function` is a no-op; otherwise the body
runs: it mutates the event and performs its reentrant bus action. -/
def invokeEntry {E : Type} (sf : HandlerList E → HandlerList E)
    (e : Entry E) (st : DState E) : DState E :=
  match e.1.func with
  | none => st
  | some (Behavior.act f) =>
      { st with ev := f st.ev, trace := st.trace ++ [(e.1.ident, e.2)] }
  | some (Behavior.subscribing f k cb nb p) =>
      { bus := Subscribe sf k { ident := cb, func := some nb } p st.bus
        ev := f st.ev
        trace := st.trace ++ [(e.1.ident, e.2)]
        log := st.log ++ [k] }
  | some (Behavior.unsubscribing f k t) =>
      { st with
        bus := (Unsubscribe k t st.bus).1
        ev := f st.ev
        trace := st.trace ++ [(e.1.ident, e.2)] }

/-- The delivery loop of `Publish`: fold `invokeEntry` over the snapshot. -/
def deliverAll {E : Type} (sf : HandlerList E → HandlerList E)
    (l : HandlerList E) (st : DState E) : DState E :=
  l.foldl (fun s e => invokeEntry sf e s) st

/-- Result of `Publish`: final bus, final event value, the returned `bool`,
and the instrumentation (invocation trace, subscribe log). -/
structure PubResult (E : Type) where
  bus : Bus E
  ev : E
  ok : Bool
  trace : List (CCIdent × EventPriority)
  log : List EventKey

/-- Model of `EventBus::Publish<TypeEvent>`: under the registry lock look up
the handler list; if absent return `false` having invoked nobody.  If
present, copy the entries out (`get_callbacks` returns the vector by value),
release the lock, then invoke each snapshot entry in order against the
caller's event instance, and return `true`. -/
def Publish {E : Type} (sf : HandlerList E → HandlerList E)
    (k : EventKey) (bus : Bus E) (ev : E) : PubResult E :=
  match lookupL bus k with
  | none => ⟨bus, ev, false, [], []⟩
  | some l =>
      let st := deliverAll sf l ⟨bus, ev, [], []⟩
      ⟨st.bus, st.ev, true, st.trace, st.log⟩

/-- The invocations `Publish` performs on a snapshot `l`: every entry whose
stored `std::function` is non-empty, in snapshot order. -/
def liveTrace {E : Type} (l : HandlerList E) : List (CCIdent × EventPriority) :=
  (l.filter (fun e => e.1.func.isSome)).map (fun e => (e.1.ident, e.2))

/-- An external operation on the bus, for reasoning about arbitrary call
sequences. -/
inductive BusOp (E : Type) where
  | sub (k : EventKey) (cb : BusCC E) (p : EventPriority)
  | unsub (k : EventKey) (t : CCIdent)
  | pub (k : EventKey) (ev : E)

/-- Execute one external operation; the second component accumulates the
keys of all `Subscribe` calls executed so far (both top-level `sub`
operations and `Subscribe` calls made from inside published callbacks). -/
def stepOp {E : Type} (sf : HandlerList E → HandlerList E)
    (st : Bus E × List EventKey) (op : BusOp E) : Bus E × List EventKey :=
  match op with
  | BusOp.sub k cb p => (Subscribe sf k cb p st.1, st.2 ++ [k])
  | BusOp.unsub k t => ((Unsubscribe k t st.1).1, st.2)
  | BusOp.pub k ev => ((Publish sf k st.1 ev).bus, st.2 ++ (Publish sf k st.1 ev).log)

/-- Execute a sequence of external operations. -/
def runOps {E : Type} (sf : HandlerList E → HandlerList E)
    (ops : List (BusOp E)) (st : Bus E × List EventKey) : Bus E × List EventKey :=
  ops.foldl (stepOp sf) st

/-- The two mutual-exclusion policies instantiated in the repository:
`std::null_mutex` (whose `lock()` does nothing) and `std::mutex` (the
`EventBus` default, non-recursive: locking it again on the same thread is
undefined behaviour / deadlock). -/
inductive MutexKind where
  | nullMutex
  | stdMutex
deriving DecidableEq

/-- One `std::lock_guard` acquisition on the handler mutex, given whether
this thread already holds it: for `null_mutex` it always proceeds; for
`std::mutex` a reentrant acquisition never returns (modelled as `none`). -/
def lockAcq : MutexKind → Bool → Option Bool
  | MutexKind.nullMutex, held => some held
  | MutexKind.stdMutex, held => if held then none else some true

/-- Model of `find_callback_it` including its `lock_guard`: acquire the
handler mutex (with `held` saying whether the caller already holds it),
then scan. -/
def find_callback_locked {E : Type} (pol : MutexKind) (held : Bool)
    (t : CCIdent) (l : HandlerList E) : Option (Option Nat) :=
  (lockAcq pol held).map (fun _ => find_callback t l)

/-- Model of `delete_callback` including locking: it first acquires the
handler mutex itself, then calls the public `find_callback_it`, which
acquires the same mutex again; if the found iterator is not `end()`, erase
it.  `none` means the call never returns (reentrant lock on `std::mutex`). -/
def delete_callback_locked {E : Type} (pol : MutexKind)
    (t : CCIdent) (l : HandlerList E) : Option (HandlerList E) :=
  match lockAcq pol false with
  | none => none
  | some h₁ =>
      match find_callback_locked pol h₁ t l with
      | none => none
      | some none => some l
      | some (some i) => some (l.eraseIdx i)

/-- Model of `SimpleUserEventHandler::invoke_all` in the only instantiation
the code compiles with (`U = void`): walk the vector invoking every
callback in order; the event threads through by reference. -/
def invoke_all_void {T : Type} (l : List (CC T Unit × EventPriority)) (ev : T) : T :=
  l.foldl (fun e c => invoke c.1 e) ev

/-- Model of the evidently intended semantics of the non-void branch of
`invoke_all` (`U u; for (...) u = callback.first.invoke(arg); return u;`
with `invoke` returning the wrapped result).  As written the branch is
ill-formed — `invoke` is declared `void` — so this definition follows the
loop structure of the source with the assignment given its intended
meaning; `u₀` stands for the indeterminate initial value of `U u;`. -/
def invoke_all_val {T U : Type} (l : List (CC T U × EventPriority)) (u₀ : U) (ev : T) : U × T :=
  l.foldl
    (fun acc c =>
      match c.1.func with
      | some f => f acc.2
      | none => acc)
    (u₀, ev)

/-- Whether the registry currently owns a handler list for a key. -/
def hasList {E : Type} (bus : Bus E) (k : EventKey) : Bool :=
  (lookupL bus k).isSome

theorem lookup_update_self {A : Type} (bus : List (EventKey × A)) (k : EventKey) (v w : A)
    (h : lookupL bus k = some w) : lookupL (updateL bus k v) k = some v := by
  induction bus with
  | nil => simp [lookupL] at h
  | cons e rest ih =>
      obtain ⟨k₁, a⟩ := e
      by_cases hk : k = k₁
      · simp [lookupL, updateL, hk]
      · simp only [lookupL, updateL, if_neg hk] at h ⊢
        exact ih h

theorem lookup_update_other {A : Type} (bus : List (EventKey × A)) (k k' : EventKey) (v : A)
    (h : k' ≠ k) : lookupL (updateL bus k v) k' = lookupL bus k' := by
  induction bus with
  | nil => simp [updateL]
  | cons e rest ih =>
      obtain ⟨k₁, a⟩ := e
      by_cases hk : k = k₁
      · subst hk
        simp only [updateL, if_pos rfl, lookupL, if_neg h]
      · simp only [updateL, if_neg hk, lookupL]
        by_cases hk' : k' = k₁
        · simp [hk']
        · simp only [if_neg hk']
          exact ih

theorem update_absent {A : Type} (bus : List (EventKey × A)) (k : EventKey) (v : A)
    (h : lookupL bus k = none) : updateL bus k v = bus := by
  induction bus with
  | nil => rfl
  | cons e rest ih =>
      obtain ⟨k₁, a⟩ := e
      by_cases hk : k = k₁
      · simp [lookupL, hk] at h
      · simp only [lookupL, if_neg hk] at h
        simp only [updateL, if_neg hk]
        rw [ih h]

theorem keys_update {A : Type} (bus : List (EventKey × A)) (k : EventKey) (v : A) :
    (updateL bus k v).map Prod.fst = bus.map Prod.fst := by
  induction bus with
  | nil => rfl
  | cons e rest ih =>
      obtain ⟨k₁, a⟩ := e
      by_cases hk : k = k₁
      · simp [updateL, hk]
      · simp only [updateL, if_neg hk, List.map_cons]
        rw [ih]

theorem lookup_none_iff {A : Type} (bus : List (EventKey × A)) (k : EventKey) :
    lookupL bus k = none ↔ k ∉ bus.map Prod.fst := by
  induction bus with
  | nil => simp [lookupL]
  | cons e rest ih =>
      obtain ⟨k₁, a⟩ := e
      by_cases hk : k = k₁
      · simp [lookupL, hk]
      · simp [lookupL, if_neg hk, ih, hk]

theorem hasList_subscribe {E : Type} (sf : HandlerList E → HandlerList E)
    (k k' : EventKey) (cb : BusCC E) (p : EventPriority) (bus : Bus E) :
    hasList (Subscribe sf k cb p bus) k' = true ↔ (k' = k ∨ hasList bus k' = true) := by
  unfold Subscribe
  cases h : lookupL bus k with
  | none =>
      by_cases hk : k' = k
      · simp [hasList, lookupL, hk]
      · simp [hasList, lookupL, if_neg hk, hk]
  | some l =>
      by_cases hk : k' = k
      · subst hk
        simp [hasList, lookup_update_self bus k' _ l h, h]
      · simp [hasList, lookup_update_other bus k k' _ hk, hk]

theorem hasList_unsubscribe {E : Type} (k k' : EventKey) (t : CCIdent) (bus : Bus E) :
    hasList ((Unsubscribe k t bus).1) k' = hasList bus k' := by
  unfold Unsubscribe
  cases h : lookupL bus k with
  | none => rfl
  | some l =>
      by_cases hk : k' = k
      · subst hk
        simp [hasList, lookup_update_self bus k' _ l h, h]
      · simp [hasList, lookup_update_other bus k k' _ hk]

theorem delete_callback_sublist {E : Type} (t : CCIdent) (l : HandlerList E) :
    List.Sublist (delete_callback t l) l := by
  induction l with
  | nil => simp [delete_callback]
  | cons e rest ih =>
      unfold delete_callback
      by_cases h : ccEq e.1.ident t = true
      · simp only [if_pos h]
        exact List.sublist_cons_self e rest
      · simp only [if_neg h]
        exact ih.cons₂ e

theorem perm_pair_eq {α : Type} {l : List α} {a b : α} (h : List.Perm l [a, b]) :
    l = [a, b] ∨ l = [b, a] := by
  have hlen := h.length_eq
  match l, hlen with
  | [x, y], _ =>
      have hx : x ∈ [a, b] := h.subset (by simp)
      simp only [List.mem_cons, List.mem_singleton, List.not_mem_nil, or_false] at hx
      rcases hx with hx | hx
      · subst hx
        have hy : [y] = [b] := List.perm_singleton.mp ((List.perm_cons x).mp h)
        exact Or.inl (by injection hy with hy _; rw [hy])
      · subst hx
        have h₂ : List.Perm [x, y] [x, a] := h.trans (List.Perm.swap x a [])
        have hy : [y] = [a] := List.perm_singleton.mp ((List.perm_cons x).mp h₂)
        exact Or.inr (by injection hy with hy _; rw [hy])

theorem sortM_spec {E : Type} : SortSpec (@sortM E) := fun l =>
  ⟨List.perm_insertionSort relE l, List.sorted_insertionSort relE l⟩

theorem revSort_spec {E : Type} : SortSpec (@revSort E) := fun l =>
  ⟨(List.perm_insertionSort relE l.reverse).trans l.reverse_perm,
   List.sorted_insertionSort relE l.reverse⟩

theorem sortspec_singleton {E : Type} {sf : HandlerList E → HandlerList E}
    (hsf : SortSpec sf) (x : Entry E) : sf [x] = [x] :=
  List.perm_singleton.mp (hsf [x]).1

theorem sortspec_pair {E : Type} {sf : HandlerList E → HandlerList E}
    (hsf : SortSpec sf) (x y : Entry E) (h : prioVal y.2 < prioVal x.2) :
    sf [x, y] = [x, y] := by
  rcases perm_pair_eq (hsf [x, y]).1 with he | he
  · exact he
  · exfalso
    have hp := (hsf [x, y]).2
    rw [he] at hp
    have : relE y x := (List.pairwise_cons.mp hp).1 x (by simp)
    exact absurd this (by simpa [relE] using h)

theorem deliverAll_nil {E : Type} (sf : HandlerList E → HandlerList E) (st : DState E) :
    deliverAll sf [] st = st := rfl

theorem deliverAll_cons {E : Type} (sf : HandlerList E → HandlerList E)
    (e : Entry E) (rest : HandlerList E) (st : DState E) :
    deliverAll sf (e :: rest) st = deliverAll sf rest (invokeEntry sf e st) := rfl

theorem deliver_trace {E : Type} (sf : HandlerList E → HandlerList E) :
    ∀ (l : HandlerList E) (st : DState E),
      (deliverAll sf l st).trace = st.trace ++ liveTrace l := by
  intro l
  induction l with
  | nil => intro st; simp [deliverAll, liveTrace]
  | cons e rest ih =>
      intro st
      rw [deliverAll_cons, ih]
      cases hf : e.1.func with
      | none => simp [invokeEntry, hf, liveTrace, List.filter_cons]
      | some b => cases b <;> simp [invokeEntry, hf, liveTrace, List.filter_cons]

/-- An entry that does not reenter the bus when invoked. -/
def Inert {E : Type} (e : Entry E) : Prop :=
  match e.1.func with
  | none => True
  | some (Behavior.act _) => True
  | some (Behavior.subscribing _ _ _ _ _) => False
  | some (Behavior.unsubscribing _ _ _) => False

theorem deliver_inert {E : Type} (sf : HandlerList E → HandlerList E) :
    ∀ (l : HandlerList E) (st : DState E), (∀ e ∈ l, Inert e) →
      (deliverAll sf l st).bus = st.bus ∧ (deliverAll sf l st).log = st.log := by
  intro l
  induction l with
  | nil => intro st _; exact ⟨rfl, rfl⟩
  | cons e rest ih =>
      intro st h
      have he : Inert e := h e (by simp)
      have hr : ∀ x ∈ rest, Inert x := fun x hx => h x (by simp [hx])
      rw [deliverAll_cons]
      have hstep : (invokeEntry sf e st).bus = st.bus ∧ (invokeEntry sf e st).log = st.log := by
        cases hf : e.1.func with
        | none => simp [invokeEntry, hf]
        | some b =>
            cases b with
            | act f => simp [invokeEntry, hf]
            | subscribing f k cb nb p => simp [Inert, hf] at he
            | unsubscribing f k t => simp [Inert, hf] at he
      obtain ⟨h1, h2⟩ := ih (invokeEntry sf e st) hr
      exact ⟨h1.trans hstep.1, h2.trans hstep.2⟩

theorem deliver_delta {E : Type} (sf : HandlerList E → HandlerList E) :
    ∀ (l : HandlerList E) (st : DState E),
      ∃ dl, (deliverAll sf l st).log = st.log ++ dl ∧
        ∀ k, (hasList (deliverAll sf l st).bus k = true ↔ hasList st.bus k = true ∨ k ∈ dl) := by
  intro l
  induction l with
  | nil =>
      intro st
      exact ⟨[], by simp [deliverAll], fun k => by simp [deliverAll]⟩
  | cons e rest ih =>
      intro st
      obtain ⟨dl', h1, h2⟩ := ih (invokeEntry sf e st)
      rw [deliverAll_cons]
      cases hf : e.1.func with
      | none =>
          have he : invokeEntry sf e st = st := by simp [invokeEntry, hf]
          rw [he] at h1 h2 ⊢
          exact ⟨dl', h1, h2⟩
      | some b =>
          cases b with
          | act f =>
              have he : (invokeEntry sf e st).bus = st.bus := by simp [invokeEntry, hf]
              have hl : (invokeEntry sf e st).log = st.log := by simp [invokeEntry, hf]
              rw [he] at h2
              rw [hl] at h1
              exact ⟨dl', h1, h2⟩
          | subscribing f k₀ cb nb p =>
              have he : (invokeEntry sf e st).bus = Subscribe sf k₀ ⟨cb, some nb⟩ p st.bus := by
                simp [invokeEntry, hf]
              have hl : (invokeEntry sf e st).log = st.log ++ [k₀] := by simp [invokeEntry, hf]
              rw [he] at h2
              rw [hl] at h1
              refine ⟨k₀ :: dl', ?_, ?_⟩
              · rw [h1, List.append_assoc]
                rfl
              · intro k
                rw [h2 k, hasList_subscribe]
                simp only [List.mem_cons]
                tauto
          | unsubscribing f k₀ t =>
              have he : ∀ k, hasList (invokeEntry sf e st).bus k = hasList st.bus k := by
                intro k
                have hb : (invokeEntry sf e st).bus = (Unsubscribe k₀ t st.bus).1 := by
                  simp [invokeEntry, hf]
                rw [hb, hasList_unsubscribe]
              have hl : (invokeEntry sf e st).log = st.log := by simp [invokeEntry, hf]
              rw [hl] at h1
              refine ⟨dl', h1, ?_⟩
              intro k
              rw [h2 k, he k]

theorem publish_delta {E : Type} (sf : HandlerList E → HandlerList E)
    (k : EventKey) (bus : Bus E) (ev : E) (k' : EventKey) :
    hasList (Publish sf k bus ev).bus k' = true ↔
      (hasList bus k' = true ∨ k' ∈ (Publish sf k bus ev).log) := by
  unfold Publish
  cases h : lookupL bus k with
  | none => simp
  | some l =>
      obtain ⟨dl, h1, h2⟩ := deliver_delta sf l ⟨bus, ev, [], []⟩
      have h1' : (deliverAll sf l ⟨bus, ev, [], []⟩).log = dl := by simpa using h1
      have h2' := h2 k'
      simp only [show (DState.mk bus ev ([] : List (CCIdent × EventPriority)) ([] : List EventKey)).bus = bus from rfl] at h2'
      simpa [h1'] using h2'

/-- The registry presence/log invariant: a handler list exists for a key iff
a `Subscribe` for that key has been logged. -/
def PLInv {E : Type} (st : Bus E × List EventKey) : Prop :=
  ∀ k, hasList st.1 k = true ↔ k ∈ st.2

theorem stepOp_pl {E : Type} (sf : HandlerList E → HandlerList E)
    (st : Bus E × List EventKey) (op : BusOp E) (h : PLInv st) : PLInv (stepOp sf st op) := by
  cases op with
  | sub k cb p =>
      intro k'
      simp only [stepOp]
      rw [hasList_subscribe]
      simp only [h k', List.mem_append, List.mem_singleton]
      tauto
  | unsub k t =>
      intro k'
      simp only [stepOp]
      rw [hasList_unsubscribe]
      exact h k'
  | pub k ev =>
      intro k'
      simp only [stepOp]
      rw [publish_delta]
      simp only [h k', List.mem_append]

theorem runOps_pl {E : Type} (sf : HandlerList E → HandlerList E) (ops : List (BusOp E)) :
    ∀ st, PLInv st → PLInv (runOps sf ops st) := by
  induction ops with
  | nil => intro st h; exact h
  | cons op rest ih => intro st h; exact ih _ (stepOp_pl sf st op h)

theorem runOps_pl_empty {E : Type} (sf : HandlerList E → HandlerList E) (ops : List (BusOp E)) :
    PLInv (runOps sf ops ([], [])) :=
  runOps_pl sf ops ([], []) (fun k => by simp [hasList, lookupL])

theorem preserve_deliver {E : Type} {P : Bus E → Prop} (sf : HandlerList E → HandlerList E)
    (hS : ∀ k cb p bus, P bus → P (Subscribe sf k cb p bus))
    (hU : ∀ k t bus, P bus → P ((Unsubscribe k t bus).1)) :
    ∀ (l : HandlerList E) (st : DState E), P st.bus → P (deliverAll sf l st).bus := by
  intro l
  induction l with
  | nil => intro st h; exact h
  | cons e rest ih =>
      intro st h
      rw [deliverAll_cons]
      refine ih _ ?_
      cases hf : e.1.func with
      | none => simpa [invokeEntry, hf] using h
      | some b =>
          cases b with
          | act f => simpa [invokeEntry, hf] using h
          | subscribing f k cb nb p =>
              have hb : (invokeEntry sf e st).bus = Subscribe sf k ⟨cb, some nb⟩ p st.bus := by
                simp [invokeEntry, hf]
              rw [hb]
              exact hS _ _ _ _ h
          | unsubscribing f k t =>
              have hb : (invokeEntry sf e st).bus = (Unsubscribe k t st.bus).1 := by
                simp [invokeEntry, hf]
              rw [hb]
              exact hU _ _ _ h

theorem preserve_publish {E : Type} {P : Bus E → Prop} (sf : HandlerList E → HandlerList E)
    (hS : ∀ k cb p bus, P bus → P (Subscribe sf k cb p bus))
    (hU : ∀ k t bus, P bus → P ((Unsubscribe k t bus).1))
    (k : EventKey) (bus : Bus E) (ev : E) (h : P bus) : P (Publish sf k bus ev).bus := by
  unfold Publish
  cases hb : lookupL bus k with
  | none => simpa using h
  | some l => exact preserve_deliver sf hS hU l ⟨bus, ev, [], []⟩ h

theorem preserve_run {E : Type} {P : Bus E → Prop} (sf : HandlerList E → HandlerList E)
    (hS : ∀ k cb p bus, P bus → P (Subscribe sf k cb p bus))
    (hU : ∀ k t bus, P bus → P ((Unsubscribe k t bus).1))
    (ops : List (BusOp E)) :
    ∀ st, P st.1 → P (runOps sf ops st).1 := by
  induction ops with
  | nil => intro st h; exact h
  | cons op rest ih =>
      intro st h
      refine ih _ ?_
      cases op with
      | sub k cb p => exact hS _ _ _ _ h
      | unsub k t => exact hU _ _ _ h
      | pub k ev => exact preserve_publish sf hS hU k st.1 ev h

/-- Invariant of C1: every handler list in the registry is sorted
non-increasingly by priority. -/
def InvSorted {E : Type} (bus : Bus E) : Prop :=
  ∀ k l, lookupL bus k = some l → List.Pairwise relE l

/-- Invariant of C9: registry keys are pairwise distinct (exactly one
handler list per event type). -/
def NKeys {E : Type} (bus : Bus E) : Prop :=
  (bus.map Prod.fst).Nodup

theorem invSorted_subscribe {E : Type} {sf : HandlerList E → HandlerList E}
    (hsf : SortSpec sf) (k : EventKey) (cb : BusCC E) (p : EventPriority) (bus : Bus E)
    (h : InvSorted bus) : InvSorted (Subscribe sf k cb p bus) := by
  unfold Subscribe
  cases hb : lookupL bus k with
  | none =>
      intro k' l' hl'
      by_cases hk : k' = k
      · subst hk
        simp [lookupL] at hl'
        subst hl'
        exact (hsf _).2
      · simp only [lookupL, if_neg hk] at hl'
        exact h k' l' hl'
  | some l₀ =>
      intro k' l' hl'
      by_cases hk : k' = k
      · subst hk
        rw [lookup_update_self bus k' _ l₀ hb] at hl'
        have hv : add_callback sf l₀ cb p = l' := Option.some.inj hl'
        exact hv ▸ (hsf _).2
      · rw [lookup_update_other bus k k' _ hk] at hl'
        exact h k' l' hl'

theorem invSorted_unsubscribe {E : Type} (k : EventKey) (t : CCIdent) (bus : Bus E)
    (h : InvSorted bus) : InvSorted ((Unsubscribe k t bus).1) := by
  unfold Unsubscribe
  cases hb : lookupL bus k with
  | none => simpa using h
  | some l₀ =>
      intro k' l' hl'
      by_cases hk : k' = k
      · subst hk
        rw [lookup_update_self bus k' _ l₀ hb] at hl'
        have hv : delete_callback t l₀ = l' := Option.some.inj hl'
        exact hv ▸ List.Pairwise.sublist (delete_callback_sublist t l₀) (h k' l₀ hb)
      · rw [lookup_update_other bus k k' _ hk] at hl'
        exact h k' l' hl'

theorem nkeys_subscribe {E : Type} (sf : HandlerList E → HandlerList E)
    (k : EventKey) (cb : BusCC E) (p : EventPriority) (bus : Bus E)
    (h : NKeys bus) : NKeys (Subscribe sf k cb p bus) := by
  unfold Subscribe
  cases hb : lookupL bus k with
  | none =>
      simp only [NKeys, List.map_cons, List.nodup_cons]
      exact ⟨(lookup_none_iff bus k).mp hb, h⟩
  | some l₀ =>
      unfold NKeys
      rw [keys_update]
      exact h

theorem nkeys_unsubscribe {E : Type} (k : EventKey) (t : CCIdent) (bus : Bus E)
    (h : NKeys bus) : NKeys ((Unsubscribe k t bus).1) := by
  unfold Unsubscribe
  cases hb : lookupL bus k with
  | none => simpa using h
  | some l₀ =>
      unfold NKeys
      rw [keys_update]
      exact h

theorem stepOp_log {E : Type} (sf : HandlerList E → HandlerList E)
    (st : Bus E × List EventKey) (op : BusOp E) :
    ∃ d, (stepOp sf st op).2 = st.2 ++ d := by
  cases op with
  | sub k cb p => exact ⟨[k], rfl⟩
  | unsub k t => exact ⟨[], by simp [stepOp]⟩
  | pub k ev => exact ⟨(Publish sf k st.1 ev).log, rfl⟩

theorem runOps_log_prefix {E : Type} (sf : HandlerList E → HandlerList E)
    (ops : List (BusOp E)) : ∀ st, ∃ dl, (runOps sf ops st).2 = st.2 ++ dl := by
  induction ops with
  | nil => intro st; exact ⟨[], by simp [runOps]⟩
  | cons op rest ih =>
      intro st
      obtain ⟨d, hd⟩ := stepOp_log sf st op
      obtain ⟨dl', h⟩ := ih (stepOp sf st op)
      refine ⟨d ++ dl', ?_⟩
      have : runOps sf (op :: rest) st = runOps sf rest (stepOp sf st op) := rfl
      rw [this, h, hd, List.append_assoc]

theorem runOps_append {E : Type} (sf : HandlerList E → HandlerList E)
    (a b : List (BusOp E)) (st : Bus E × List EventKey) :
    runOps sf (a ++ b) st = runOps sf b (runOps sf a st) := by
  simp [runOps, List.foldl_append]

theorem publish_none {E : Type} (sf : HandlerList E → HandlerList E)
    (k : EventKey) (bus : Bus E) (ev : E) (h : lookupL bus k = none) :
    Publish sf k bus ev = ⟨bus, ev, false, [], []⟩ := by
  simp [Publish, h]

theorem publish_trace {E : Type} (sf : HandlerList E → HandlerList E)
    (k : EventKey) (bus : Bus E) (ev : E) (l : HandlerList E)
    (h : lookupL bus k = some l) : (Publish sf k bus ev).trace = liveTrace l := by
  simp only [Publish, h]
  simpa using deliver_trace sf l ⟨bus, ev, [], []⟩

theorem publish_ok_iff {E : Type} (sf : HandlerList E → HandlerList E)
    (k : EventKey) (bus : Bus E) (ev : E) :
    (Publish sf k bus ev).ok = true ↔ (lookupL bus k).isSome = true := by
  unfold Publish
  cases h : lookupL bus k <;> simp

theorem publish_ok_false_iff {E : Type} (sf : HandlerList E → HandlerList E)
    (k : EventKey) (bus : Bus E) (ev : E) :
    (Publish sf k bus ev).ok = false ↔ lookupL bus k = none := by
  unfold Publish
  cases h : lookupL bus k <;> simp

/-- Identity of the free function at address `n` (shorthand for witnesses). -/
def cid (n : Addr) : CCIdent := (make_func n fIdInt).ident

/-- An inert subscriber with identity `cid n` whose body leaves the event
unchanged (shorthand for witnesses). -/
def icb (n : Addr) : BusCC Int := ⟨cid n, some (Behavior.act (fun d => d))⟩

/-- C2: `Publish` returns `false` and performs zero invocations exactly when
no handler list exists for the event type; a handler list exists for a key
of a bus built by any operation sequence iff a `Subscribe` for that key was
executed during the sequence (including `Subscribe` calls made from inside
published callbacks); and once a list exists — even an empty one —
`Publish` returns `true` with zero invocations and no other effect. -/
theorem c2_publish_no_handler {E : Type} (sf : HandlerList E → HandlerList E)
    (bus : Bus E) (k : EventKey) (ev : E) (ops : List (BusOp E)) :
    ((Publish sf k bus ev).ok = false ↔ lookupL bus k = none) ∧
    (lookupL bus k = none → Publish sf k bus ev = ⟨bus, ev, false, [], []⟩) ∧
    (lookupL bus k = some [] →
      (Publish sf k bus ev).ok = true ∧ (Publish sf k bus ev).trace = [] ∧
      (Publish sf k bus ev).bus = bus ∧ (Publish sf k bus ev).ev = ev) ∧
    ((Publish sf k (runOps sf ops ([], [])).1 ev).ok = false ↔
      k ∉ (runOps sf ops ([], [])).2) := by
  refine ⟨publish_ok_false_iff sf k bus ev, publish_none sf k bus ev, ?_, ?_⟩
  · intro h
    simp [Publish, h, deliverAll]
  · rw [publish_ok_false_iff]
    have hpl := runOps_pl_empty sf ops k
    rw [hasList] at hpl
    cases hl : lookupL (runOps sf ops ([], [])).1 k with
    | none =>
        rw [hl] at hpl
        simp only [Option.isSome_none, Bool.false_eq_true, false_iff] at hpl
        simp [hpl]
    | some l =>
        rw [hl] at hpl
        simp only [Option.isSome_some, true_iff] at hpl
        simp [hpl]

/-- C2 witness: publishing on a fresh bus returns `false` with no effect;
after the key gains a (here empty) list, `Publish` returns `true` and still
invokes nobody; and the registry-presence criterion evaluated on a one-step
subscribe run. -/
theorem c2_publish_no_handler_witness :
    (Publish sortM 0 ([] : Bus Int) 0).ok = false ∧
    Publish sortM 0 ([] : Bus Int) 0 = ⟨[], 0, false, [], []⟩ ∧
    (Publish sortM 0 [(0, ([] : HandlerList Int))] 0).ok = true ∧
    (Publish sortM 0 [(0, ([] : HandlerList Int))] 0).trace = [] ∧
    ((Publish sortM 0 (runOps sortM [BusOp.sub 0 (icb 1) EventPriority.Default] ([], [])).1 0).ok = false ↔
      (0 : EventKey) ∉ (runOps sortM [BusOp.sub 0 (icb 1) EventPriority.Default] ([], [])).2) :=
  ⟨((c2_publish_no_handler sortM ([] : Bus Int) 0 0 []).1).mpr rfl,
   (c2_publish_no_handler sortM ([] : Bus Int) 0 0 []).2.1 rfl,
   ((c2_publish_no_handler sortM [(0, ([] : HandlerList Int))] 0 0 []).2.2.1 rfl).1,
   ((c2_publish_no_handler sortM [(0, ([] : HandlerList Int))] 0 0 []).2.2.1 rfl).2.1,
   (c2_publish_no_handler sortM ([] : Bus Int) 0 0
     [BusOp.sub 0 (icb 1) EventPriority.Default]).2.2.2⟩

/-- C9: after any operation sequence from an empty bus the registry holds at
most one handler list per key (`Nodup` keys); a list exists for a key iff a
`Subscribe` for that key was executed (lazy creation); a key once present
stays present under any further operations (never removed); `Unsubscribe`
leaves the key set exactly unchanged (even when it empties a list); and
`Publish` never removes keys and, when its callbacks perform no `Subscribe`
(empty subscribe log), leaves presence of every key unchanged. -/
theorem c9_registry_invariant {E : Type} (sf : HandlerList E → HandlerList E)
    (ops ops₂ : List (BusOp E)) (k : EventKey) (t : CCIdent) :
    NKeys (runOps sf ops ([], [])).1 ∧
    (hasList (runOps sf ops ([], [])).1 k = true ↔ k ∈ (runOps sf ops ([], [])).2) ∧
    (hasList (runOps sf ops ([], [])).1 k = true →
      hasList (runOps sf (ops ++ ops₂) ([], [])).1 k = true) ∧
    (∀ bus : Bus E, ((Unsubscribe k t bus).1).map Prod.fst = bus.map Prod.fst) ∧
    (∀ (bus : Bus E) (ev : E),
      (∀ k', hasList bus k' = true → hasList (Publish sf k bus ev).bus k' = true) ∧
      ((Publish sf k bus ev).log = [] →
        ∀ k', (hasList (Publish sf k bus ev).bus k' = true ↔ hasList bus k' = true))) := by
  refine ⟨?_, runOps_pl_empty sf ops k, ?_, ?_, ?_⟩
  · exact preserve_run sf (nkeys_subscribe sf) nkeys_unsubscribe ops ([], [])
      (by simp [NKeys])
  · intro h
    have hk : k ∈ (runOps sf ops ([], [])).2 := (runOps_pl_empty sf ops k).mp h
    rw [runOps_append]
    obtain ⟨dl, hdl⟩ := runOps_log_prefix sf ops₂ (runOps sf ops ([], []))
    refine (runOps_pl sf ops₂ (runOps sf ops ([], [])) (runOps_pl_empty sf ops) k).mpr ?_
    rw [hdl]
    exact List.mem_append_left dl hk
  · intro bus
    unfold Unsubscribe
    cases hb : lookupL bus k with
    | none => rfl
    | some l₀ => exact keys_update bus k (delete_callback t l₀)
  · intro bus ev
    constructor
    · intro k' h
      exact (publish_delta sf k bus ev k').mpr (Or.inl h)
    · intro hlog k'
      rw [publish_delta sf k bus ev k', hlog]
      simp

/-- C9 witness: the registry invariants evaluated on a concrete run
(subscribe to key 0, unsubscribe the only entry, publish) followed by a
further unsubscribe: keys stay `Nodup`, key 0 is present iff logged, stays
present, and `Unsubscribe` on a bus with an emptied list keeps the key. -/
theorem c9_registry_invariant_witness :
    NKeys (runOps sortM [BusOp.sub 0 (icb 1) EventPriority.Default,
      BusOp.unsub 0 (cid 1), BusOp.pub 0 0] ([], [])).1 ∧
    (hasList (runOps sortM [BusOp.sub 0 (icb 1) EventPriority.Default,
      BusOp.unsub 0 (cid 1), BusOp.pub 0 0] ([], [])).1 0 = true ↔
      (0 : EventKey) ∈ (runOps sortM [BusOp.sub 0 (icb 1) EventPriority.Default,
        BusOp.unsub 0 (cid 1), BusOp.pub 0 0] ([], [])).2) ∧
    hasList (runOps sortM ([BusOp.sub 0 (icb 1) EventPriority.Default,
      BusOp.unsub 0 (cid 1), BusOp.pub 0 0] ++ [BusOp.unsub 0 (cid 1)]) ([], [])).1 0 = true ∧
    ((Unsubscribe 0 (cid 1) [(0, ([] : HandlerList Int))]).1).map Prod.fst = [0] :=
  ⟨(c9_registry_invariant sortM [BusOp.sub 0 (icb 1) EventPriority.Default,
      BusOp.unsub 0 (cid 1), BusOp.pub 0 0] [BusOp.unsub 0 (cid 1)] 0 (cid 1)).1,
   (c9_registry_invariant sortM [BusOp.sub 0 (icb 1) EventPriority.Default,
      BusOp.unsub 0 (cid 1), BusOp.pub 0 0] [BusOp.unsub 0 (cid 1)] 0 (cid 1)).2.1,
   (c9_registry_invariant sortM [BusOp.sub 0 (icb 1) EventPriority.Default,
      BusOp.unsub 0 (cid 1), BusOp.pub 0 0] [BusOp.unsub 0 (cid 1)] 0 (cid 1)).2.2.1 (by decide),
   (c9_registry_invariant sortM [BusOp.sub 0 (icb 1) EventPriority.Default,
      BusOp.unsub 0 (cid 1), BusOp.pub 0 0] [BusOp.unsub 0 (cid 1)] 0 (cid 1)).2.2.2.1
     [(0, ([] : HandlerList Int))]⟩

theorem find_callback_none_delete {E : Type} (t : CCIdent) :
    ∀ l : HandlerList E, find_callback t l = none → delete_callback t l = l := by
  intro l
  induction l with
  | nil => intro _; rfl
  | cons e rest ih =>
      intro h
      by_cases hm : ccEq e.1.ident t = true
      · simp [find_callback, hm] at h
      · simp only [find_callback, if_neg hm, Option.map_eq_none'] at h
        simp only [delete_callback, if_neg hm]
        rw [ih h]

theorem find_callback_some_delete {E : Type} (t : CCIdent) :
    ∀ (l : HandlerList E) (i : Nat), find_callback t l = some i →
      l.eraseIdx i = delete_callback t l := by
  intro l
  induction l with
  | nil => intro i h; simp [find_callback] at h
  | cons e rest ih =>
      intro i h
      by_cases hm : ccEq e.1.ident t = true
      · simp only [find_callback, if_pos hm, Option.some.injEq] at h
        subst h
        simp [List.eraseIdx, delete_callback, hm]
      · simp only [find_callback, if_neg hm, Option.map_eq_some'] at h
        obtain ⟨j, hj, hi⟩ := h
        subst hi
        simp only [List.eraseIdx, delete_callback, if_neg hm]
        rw [ih j hj]

theorem delete_locked_null {E : Type} (t : CCIdent) (l : HandlerList E) :
    delete_callback_locked MutexKind.nullMutex t l = some (delete_callback t l) := by
  cases hf : find_callback t l with
  | none =>
      rw [find_callback_none_delete t l hf]
      simp [delete_callback_locked, find_callback_locked, lockAcq, hf]
  | some i =>
      rw [← find_callback_some_delete t l i hf]
      simp [delete_callback_locked, find_callback_locked, lockAcq, hf]

/-- C3: intended functional behaviour of `Unsubscribe`, plus the lock defect
that breaks it under the default policy.  Conjuncts: (1) under the default
`std::mutex` policy, `delete_callback` never returns — it acquires the
handler mutex and then calls the public `find_callback_it`, which acquires
the same non-recursive mutex again; (2) under the `std::null_mutex` policy
it computes exactly the first-match erasure; (3) with no handler list,
`Unsubscribe` returns `false` and leaves the bus unchanged; (4) with a list
it returns `true` (even if nothing matched) and stores the first-match
erasure of that list; (5) erasure removes exactly the first matching entry,
keeping everything else in order; (6) with no matching entry the list is
unchanged; (7) after subscribing the same identity twice and unsubscribing
once, a publish invokes the remaining copy exactly once. -/
theorem c3_unsubscribe_first_match :
    (∀ (E : Type) (t : CCIdent) (l : HandlerList E),
      delete_callback_locked MutexKind.stdMutex t l = none) ∧
    (∀ (E : Type) (t : CCIdent) (l : HandlerList E),
      delete_callback_locked MutexKind.nullMutex t l = some (delete_callback t l)) ∧
    (∀ (E : Type) (k : EventKey) (t : CCIdent) (bus : Bus E),
      lookupL bus k = none → Unsubscribe k t bus = (bus, false)) ∧
    (∀ (E : Type) (k : EventKey) (t : CCIdent) (bus : Bus E) (l : HandlerList E),
      lookupL bus k = some l →
        (Unsubscribe k t bus).2 = true ∧
        lookupL (Unsubscribe k t bus).1 k = some (delete_callback t l)) ∧
    (∀ (E : Type) (t : CCIdent) (a b : HandlerList E) (e : Entry E),
      (∀ x ∈ a, ccEq x.1.ident t = false) → ccEq e.1.ident t = true →
        delete_callback t (a ++ e :: b) = a ++ b) ∧
    (∀ (E : Type) (t : CCIdent) (l : HandlerList E),
      (∀ x ∈ l, ccEq x.1.ident t = false) → delete_callback t l = l) ∧
    ((Publish sortM 0 (Unsubscribe 0 (cid 1)
        (runOps sortM [BusOp.sub 0 (icb 1) EventPriority.Default,
          BusOp.sub 0 (icb 1) EventPriority.Default] ([], [])).1).1 0).trace
      = [(cid 1, EventPriority.Default)]) := by
  refine ⟨?_, ?_, ?_, ?_, ?_, ?_, ?_⟩
  · intro E t l; rfl
  · intro E t l; exact delete_locked_null t l
  · intro E k t bus h; simp [Unsubscribe, h]
  · intro E k t bus l h
    refine ⟨by simp [Unsubscribe, h], ?_⟩
    simp only [Unsubscribe, h]
    exact lookup_update_self bus k _ l h
  · intro E t a b e ha he
    induction a with
    | nil => simp [delete_callback, he]
    | cons x a' ih =>
        have hx : ccEq x.1.ident t = false := ha x (by simp)
        have ha' : ∀ y ∈ a', ccEq y.1.ident t = false := fun y hy => ha y (by simp [hy])
        simp only [List.cons_append, delete_callback, hx, Bool.false_eq_true, if_false]
        exact congrArg (List.cons x) (ih ha')
  · intro E t l hl
    induction l with
    | nil => rfl
    | cons x rest ih =>
        have hx : ccEq x.1.ident t = false := hl x (by simp)
        have hr : ∀ y ∈ rest, ccEq y.1.ident t = false := fun y hy => hl y (by simp [hy])
        simp only [delete_callback, hx, Bool.false_eq_true, if_false]
        rw [ih hr]
  · rfl

/-- C3 witness: the deadlock and the first-match erasure evaluated on
concrete lists, and `Unsubscribe` return values on a missing and on a
present key. -/
theorem c3_unsubscribe_first_match_witness :
    delete_callback_locked MutexKind.stdMutex (cid 1) [(icb 1, EventPriority.Default)] = none ∧
    Unsubscribe 0 (cid 1) ([] : Bus Int) = ([], false) ∧
    (Unsubscribe 0 (cid 1) [(0, [(icb 1, EventPriority.Default)])]).2 = true ∧
    delete_callback (cid 1) [(icb 1, EventPriority.Default), (icb 1, EventPriority.Default)]
      = [(icb 1, EventPriority.Default)] :=
  ⟨c3_unsubscribe_first_match.1 Int (cid 1) [(icb 1, EventPriority.Default)],
   c3_unsubscribe_first_match.2.2.1 Int 0 (cid 1) ([] : Bus Int) rfl,
   (c3_unsubscribe_first_match.2.2.2.1 Int 0 (cid 1) [(0, [(icb 1, EventPriority.Default)])]
     [(icb 1, EventPriority.Default)] rfl).1,
   c3_unsubscribe_first_match.2.2.2.2.1 Int (cid 1) [] [(icb 1, EventPriority.Default)]
     (icb 1, EventPriority.Default) (by simp) (by decide)⟩

theorem deliverAll_append {E : Type} (sf : HandlerList E → HandlerList E)
    (a b : HandlerList E) (st : DState E) :
    deliverAll sf (a ++ b) st = deliverAll sf b (deliverAll sf a st) := by
  simp [deliverAll, List.foldl_append]

theorem liveTrace_mem {E : Type} (l : HandlerList E) (e : Entry E)
    (he : e ∈ l) (hlive : e.1.func.isSome = true) :
    (e.1.ident, e.2) ∈ liveTrace l := by
  refine List.mem_map.mpr ⟨e, ?_, rfl⟩
  exact List.mem_filter.mpr ⟨he, hlive⟩

theorem liveTrace_fst_sub {E : Type} (l : HandlerList E) (x : CCIdent)
    (hx : x ∈ (liveTrace l).map Prod.fst) : x ∈ l.map (fun e => e.1.ident) := by
  rcases List.mem_map.mp hx with ⟨pr, hpr, hfst⟩
  rcases List.mem_map.mp hpr with ⟨e, hef, hpe⟩
  refine List.mem_map.mpr ⟨e, (List.mem_filter.mp hef).1, ?_⟩
  rw [← hfst, ← hpe]

/-- C4: `Publish` delivers to a point-in-time snapshot.  First conjunct: if
the handler list snapshotted for a key contains (anywhere) one callback
that subscribes a brand-new callback `cn` for the same key, and every other
snapshotted callback leaves the bus alone, then `cn` is not invoked during
that same `Publish` call, afterwards the handler list contains `cn`, and a
subsequent `Publish` does invoke `cn`.  Second conjunct, with no
restriction whatsoever on what the delivered callbacks do to the bus
(they may subscribe and unsubscribe anything, including each other): every
live entry of the snapshot is invoked during the call — in particular a
callback unsubscribed during delivery is still invoked once, because its
entry was already in the copy `get_callbacks` returned. -/
theorem c4_snapshot_isolation :
    (∀ (E : Type) (sf : HandlerList E → HandlerList E), SortSpec sf →
      ∀ (bus : Bus E) (k : EventKey) (l l₁ l₂ : HandlerList E) (eSub : BusCC E)
        (p₀ pn : EventPriority) (cn : CCIdent) (nb : Behavior E) (f : E → E) (ev ev₂ : E),
        lookupL bus k = some l →
        l = l₁ ++ (eSub, p₀) :: l₂ →
        eSub.func = some (Behavior.subscribing f k cn nb pn) →
        (∀ e ∈ l₁ ++ l₂, Inert e) →
        cn ∉ l.map (fun e => e.1.ident) →
        (cn ∉ (Publish sf k bus ev).trace.map Prod.fst) ∧
        (∃ l', lookupL (Publish sf k bus ev).bus k = some l' ∧
          ((⟨cn, some nb⟩ : BusCC E), pn) ∈ l' ∧
          cn ∈ (Publish sf k (Publish sf k bus ev).bus ev₂).trace.map Prod.fst)) ∧
    (∀ (E : Type) (sf : HandlerList E → HandlerList E) (bus : Bus E) (k : EventKey)
      (l : HandlerList E) (ev : E), lookupL bus k = some l →
        (Publish sf k bus ev).trace = liveTrace l ∧
        (∀ e ∈ l, e.1.func.isSome = true → (e.1.ident, e.2) ∈ (Publish sf k bus ev).trace)) := by
  constructor
  · intro E sf hsf bus k l l₁ l₂ eSub p₀ pn cn nb f ev ev₂ hl hsplit hbeh hinert hfresh
    have htr : (Publish sf k bus ev).trace = liveTrace l := publish_trace sf k bus ev l hl
    have hbus : (Publish sf k bus ev).bus = Subscribe sf k ⟨cn, some nb⟩ pn bus := by
      have hr : (Publish sf k bus ev).bus = (deliverAll sf l ⟨bus, ev, [], []⟩).bus := by
        simp [Publish, hl]
      rw [hr, hsplit, deliverAll_append, deliverAll_cons]
      have hin1 : ∀ e ∈ l₁, Inert e := fun e he => hinert e (List.mem_append_left l₂ he)
      have hin2 : ∀ e ∈ l₂, Inert e := fun e he => hinert e (List.mem_append_right l₁ he)
      have h1 : (deliverAll sf l₁ ⟨bus, ev, [], []⟩).bus = bus :=
        (deliver_inert sf l₁ ⟨bus, ev, [], []⟩ hin1).1
      have h2 : (invokeEntry sf (eSub, p₀) (deliverAll sf l₁ ⟨bus, ev, [], []⟩)).bus
          = Subscribe sf k ⟨cn, some nb⟩ pn (deliverAll sf l₁ ⟨bus, ev, [], []⟩).bus := by
        simp [invokeEntry, hbeh]
      have h3 := (deliver_inert sf l₂
        (invokeEntry sf (eSub, p₀) (deliverAll sf l₁ ⟨bus, ev, [], []⟩)) hin2).1
      rw [h3, h2, h1]
    have hl' : lookupL (Publish sf k bus ev).bus k
        = some (add_callback sf l ⟨cn, some nb⟩ pn) := by
      rw [hbus]
      simp only [Subscribe, hl]
      exact lookup_update_self bus k _ l hl
    have hm : ((⟨cn, some nb⟩ : BusCC E), pn) ∈ add_callback sf l ⟨cn, some nb⟩ pn :=
      ((hsf (l ++ [(⟨cn, some nb⟩, pn)])).1).mem_iff.mpr (by simp)
    refine ⟨?_, ⟨add_callback sf l ⟨cn, some nb⟩ pn, hl', hm, ?_⟩⟩
    · rw [htr]
      intro hx
      exact hfresh (liveTrace_fst_sub l cn hx)
    · have htr₂ := publish_trace sf k (Publish sf k bus ev).bus ev₂ _ hl'
      rw [htr₂]
      have hlt : ((⟨cn, some nb⟩ : BusCC E).ident, pn)
          ∈ liveTrace (add_callback sf l ⟨cn, some nb⟩ pn) :=
        liveTrace_mem _ ((⟨cn, some nb⟩ : BusCC E), pn) hm rfl
      exact List.mem_map.mpr ⟨(cn, pn), hlt, rfl⟩
  · intro E sf bus k l ev hl
    have htr : (Publish sf k bus ev).trace = liveTrace l := publish_trace sf k bus ev l hl
    refine ⟨htr, ?_⟩
    intro e he hlive
    rw [htr]
    exact liveTrace_mem l e he hlive

/-- Subscriber with identity `cid 9` that, when invoked, subscribes the new
callback `cid 7` (an inert one) for the same event type 0. -/
def c4sub : BusCC Int :=
  ⟨cid 9, some (Behavior.subscribing (fun d => d) 0 (cid 7)
    (Behavior.act (fun d => d)) EventPriority.Default)⟩

/-- Snapshot list holding only the subscribing callback. -/
def c4list : HandlerList Int := [(c4sub, EventPriority.Default)]

/-- Bus whose key 0 holds `c4list`. -/
def c4bus : Bus Int := [(0, c4list)]

/-- Subscriber with identity `cid 8` that, when invoked, unsubscribes the
callback `cid 5` from event type 0 — it runs first (High priority), so it
removes the next snapshot entry from the live list mid-delivery. -/
def c4unsub : BusCC Int :=
  ⟨cid 8, some (Behavior.unsubscribing (fun d => d) 0 (cid 5))⟩

/-- The victim entry: an inert callback with identity `cid 5`, positioned
after the unsubscriber. -/
def c4victim : BusCC Int := ⟨cid 5, some (Behavior.act (fun d => d))⟩

/-- Snapshot list in which the first entry unsubscribes the second. -/
def c4ulist : HandlerList Int :=
  [(c4unsub, EventPriority.High), (c4victim, EventPriority.Default)]

/-- Bus whose key 0 holds `c4ulist`. -/
def c4ubus : Bus Int := [(0, c4ulist)]

/-- C4 witness.  On `c4bus`: the fresh callback `cid 7` subscribed from
inside a delivered callback is not invoked by the first `Publish`, lands in
the handler list, and is invoked by the second `Publish` (first conjunct of
the theorem).  On `c4ubus`: the first callback unsubscribes `cid 5` during
delivery, yet `cid 5` is still invoked in that same call because its entry
was already in the snapshot (second conjunct of the theorem) — and the
final registry state, computed directly, shows the unsubscription did take
effect during that call (`cid 5` is gone from the live list). -/
theorem c4_snapshot_isolation_witness :
    ((cid 7) ∉ (Publish sortM 0 c4bus 0).trace.map Prod.fst) ∧
    (∃ l', lookupL (Publish sortM 0 c4bus 0).bus 0 = some l' ∧
      ((⟨cid 7, some (Behavior.act (fun d => d))⟩ : BusCC Int), EventPriority.Default) ∈ l' ∧
      (cid 7) ∈ (Publish sortM 0 (Publish sortM 0 c4bus 0).bus 0).trace.map Prod.fst) ∧
    ((cid 8, EventPriority.High) ∈ (Publish sortM 0 c4ubus 0).trace) ∧
    ((cid 5, EventPriority.Default) ∈ (Publish sortM 0 c4ubus 0).trace) ∧
    lookupL (Publish sortM 0 c4ubus 0).bus 0 = some [(c4unsub, EventPriority.High)] := by
  have ha := c4_snapshot_isolation.1 Int sortM sortM_spec c4bus 0 c4list [] [] c4sub
    EventPriority.Default EventPriority.Default (cid 7) (Behavior.act (fun d => d))
    (fun d => d) 0 0 rfl rfl rfl (by simp) (by decide)
  have hb := c4_snapshot_isolation.2 Int sortM c4ubus 0 c4ulist 0 rfl
  refine ⟨ha.1, ha.2, ?_, ?_, rfl⟩
  · exact hb.2 (c4unsub, EventPriority.High) (by simp [c4ulist]) rfl
  · exact hb.2 (c4victim, EventPriority.Default) (by simp [c4ulist]) rfl

/-- Model of `base_attack` from `example/main.cpp` (free function, wrapped
by `make_func`; the demo subscribes it at `High`): sets damage to 1 when
damage is at most 0.  The event payload `AttackEvent` is its `damage` field. -/
def base_attack_cb : BusCC Int :=
  ⟨cid 20, some (Behavior.act (fun d => if d ≤ 0 then 1 else d))⟩

/-- Model of `Player::attack` bound to the global `player` object (wrapped
by the bound-method `make_func` overload; subscribed at the `Default`
priority argument): adds 150 to damage. -/
def player_attack_cb : BusCC Int :=
  ⟨(make_method_func 31 30 5 fIdInt).ident, some (Behavior.act (fun d => d + 150))⟩

/-- C5: in the demo scenario — `base_attack` subscribed at `High`,
`Player::attack` subscribed at `Default`, then `Publish` of an
`AttackEvent` with `damage = 0` — the callbacks run on the same event
instance in priority order: `base_attack` first (the `damage <= 0` boundary
triggers at exactly 0, setting damage to 1), then `Player::attack` adds
150, leaving `damage = 151`; this holds for every conforming `std::sort`
behaviour since the two priorities differ. -/
theorem c5_attack_scenario (sf : HandlerList Int → HandlerList Int) (hsf : SortSpec sf) :
    (Publish sf 0 (Subscribe sf 0 player_attack_cb EventPriority.Default
      (Subscribe sf 0 base_attack_cb EventPriority.High ([] : Bus Int))) 0).ev = 151 ∧
    (Publish sf 0 (Subscribe sf 0 player_attack_cb EventPriority.Default
      (Subscribe sf 0 base_attack_cb EventPriority.High ([] : Bus Int))) 0).ok = true := by
  have h1 : Subscribe sf 0 base_attack_cb EventPriority.High ([] : Bus Int)
      = [(0, [(base_attack_cb, EventPriority.High)])] := by
    have h0 : Subscribe sf 0 base_attack_cb EventPriority.High ([] : Bus Int)
        = [(0, sf [(base_attack_cb, EventPriority.High)])] := rfl
    rw [h0, sortspec_singleton hsf]
  have hbus : Subscribe sf 0 player_attack_cb EventPriority.Default
      (Subscribe sf 0 base_attack_cb EventPriority.High ([] : Bus Int))
      = [(0, [(base_attack_cb, EventPriority.High), (player_attack_cb, EventPriority.Default)])] := by
    rw [h1]
    have h2 : Subscribe sf 0 player_attack_cb EventPriority.Default
        [(0, [(base_attack_cb, EventPriority.High)])]
        = [(0, sf [(base_attack_cb, EventPriority.High), (player_attack_cb, EventPriority.Default)])] := rfl
    rw [h2, sortspec_pair hsf (base_attack_cb, EventPriority.High)
      (player_attack_cb, EventPriority.Default) (by decide)]
  rw [hbus]
  exact ⟨rfl, rfl⟩

/-- C5 witness: the scenario evaluated with the concrete conforming sort. -/
theorem c5_attack_scenario_witness :
    (Publish sortM 0 (Subscribe sortM 0 player_attack_cb EventPriority.Default
      (Subscribe sortM 0 base_attack_cb EventPriority.High ([] : Bus Int))) 0).ev = 151 ∧
    (Publish sortM 0 (Subscribe sortM 0 player_attack_cb EventPriority.Default
      (Subscribe sortM 0 base_attack_cb EventPriority.High ([] : Bus Int))) 0).ok = true :=
  c5_attack_scenario sortM sortM_spec

/-- The bus of the C1 example: subscribe `C1 = icb 1` at `Default`, then
`C2 = icb 2` at `High`, then `C3 = icb 3` at `Default`, under sort `sf`. -/
def c1bus (sf : HandlerList Int → HandlerList Int) : Bus Int :=
  Subscribe sf 0 (icb 3) EventPriority.Default
    (Subscribe sf 0 (icb 2) EventPriority.High
      (Subscribe sf 0 (icb 1) EventPriority.Default ([] : Bus Int)))

/-- C1 counterexample: the claim requires equal-priority callbacks to be
invoked in subscription order (C2, then C1, then C3 in the example), but
`add_callback` re-sorts with `std::sort`, which the C++ standard does not
require to be stable.  `revSort` satisfies everything the standard
guarantees of `std::sort` (a sorted permutation — first conjunct), yet
under it the example publishes in the order C2, C3, C1. -/
theorem c1_counterexample :
    SortSpec (@revSort Int) ∧
    (Publish revSort 0 (c1bus revSort) 0).trace.map Prod.fst = [cid 2, cid 3, cid 1] ∧
    [cid 2, cid 3, cid 1] ≠ [cid 2, cid 1, cid 3] :=
  ⟨revSort_spec, rfl, by decide⟩

/-- C1 amended: for every conforming `std::sort` behaviour and every bus
reachable by an operation sequence, `Publish` invokes exactly the live
snapshot entries, in snapshot order, and that order is non-increasing in
priority; the relative order of equal-priority entries is not guaranteed
(`std::sort` is not stable). -/
theorem c1_amended {E : Type} (sf : HandlerList E → HandlerList E) (hsf : SortSpec sf)
    (ops : List (BusOp E)) (k : EventKey) (l : HandlerList E) (ev : E)
    (hl : lookupL (runOps sf ops ([], [])).1 k = some l) :
    (Publish sf k (runOps sf ops ([], [])).1 ev).trace = liveTrace l ∧
    List.Pairwise (fun a b => prioVal b.2 ≤ prioVal a.2)
      (Publish sf k (runOps sf ops ([], [])).1 ev).trace := by
  have hinv : InvSorted (runOps sf ops ([], [])).1 :=
    preserve_run sf (invSorted_subscribe hsf) invSorted_unsubscribe ops ([], [])
      (by intro k' l' h; simp [lookupL] at h)
  have hsort : List.Pairwise relE l := hinv k l hl
  have htr := publish_trace sf k (runOps sf ops ([], [])).1 ev l hl
  refine ⟨htr, ?_⟩
  rw [htr]
  unfold liveTrace
  exact (hsort.filter _).map _ (fun a b hab => hab)

/-- The C1 example as an operation sequence. -/
def c1ops : List (BusOp Int) :=
  [BusOp.sub 0 (icb 1) EventPriority.Default,
   BusOp.sub 0 (icb 2) EventPriority.High,
   BusOp.sub 0 (icb 3) EventPriority.Default]

/-- The handler list the example produces under the insertion-sort model. -/
def c1listW : HandlerList Int :=
  [(icb 2, EventPriority.High), (icb 1, EventPriority.Default), (icb 3, EventPriority.Default)]

/-- C1 amended witness: the ordering theorem evaluated on the example run
with the concrete conforming sort. -/
theorem c1_amended_witness :
    (Publish sortM 0 (runOps sortM c1ops ([], [])).1 0).trace = liveTrace c1listW ∧
    List.Pairwise (fun a b => prioVal b.2 ≤ prioVal a.2)
      (Publish sortM 0 (runOps sortM c1ops ([], [])).1 0).trace :=
  c1_amended sortM sortM_spec c1ops 0 c1listW 0 rfl

/-- C8: behaviour of `invoke_all`.  For the only instantiation that
compiles (`U = void`): the walk visits every callback in list order,
threading the event (split/composition law, plus the single-step law).  For
non-void `U` the source is ill-formed (`invoke` is declared `void`, yet the
branch assigns its result), so the last conjunct is about
`invoke_all_val`, the modelled intent of that branch: appending a final
live callback makes its result the returned value — the value of the LAST
callback invoked; earlier values are discarded (the result depends only on
the threaded event state, not on the accumulated value). -/
theorem c8_invoke_all :
    (∀ (T : Type) (l₁ l₂ : List (CC T Unit × EventPriority)) (ev : T),
      invoke_all_void (l₁ ++ l₂) ev = invoke_all_void l₂ (invoke_all_void l₁ ev)) ∧
    (∀ (T : Type) (c : CC T Unit) (p : EventPriority)
      (rest : List (CC T Unit × EventPriority)) (ev : T),
      invoke_all_void ((c, p) :: rest) ev = invoke_all_void rest (invoke c ev)) ∧
    (∀ (T U : Type) (l : List (CC T U × EventPriority)) (c : CC T U) (p : EventPriority)
      (f : T → U × T) (u₀ : U) (ev : T), c.func = some f →
      invoke_all_val (l ++ [(c, p)]) u₀ ev = f (invoke_all_val l u₀ ev).2) := by
  refine ⟨?_, ?_, ?_⟩
  · intro T l₁ l₂ ev
    simp [invoke_all_void, List.foldl_append]
  · intro T c p rest ev
    rfl
  · intro T U l c p f u₀ ev hf
    simp [invoke_all_val, List.foldl_append, hf]

/-- Sample value-returning callback bodies for the C8 witness. -/
def fVa : Int → Int × Int := fun n => (n * 2, n + 1)

/-- Second sample value-returning callback body for the C8 witness. -/
def fVb : Int → Int × Int := fun n => (n * 3, n + 5)

/-- C8 witness: the void walk evaluated one step, and the last-value law
applied to a two-element list of value-returning callbacks. -/
theorem c8_invoke_all_witness :
    invoke_all_void ((make_func 1 fIdInt, EventPriority.Default) :: []) 4
      = invoke_all_void [] (invoke (make_func 1 fIdInt) 4) ∧
    invoke_all_val ([((⟨cid 1, some fVa⟩ : CC Int Int), EventPriority.Default)]
        ++ [((⟨cid 2, some fVb⟩ : CC Int Int), EventPriority.Default)]) 0 0
      = fVb (invoke_all_val [((⟨cid 1, some fVa⟩ : CC Int Int), EventPriority.Default)] 0 0).2 :=
  ⟨c8_invoke_all.2.1 Int (make_func 1 fIdInt) EventPriority.Default [] 4,
   c8_invoke_all.2.2 Int Int [((⟨cid 1, some fVa⟩ : CC Int Int), EventPriority.Default)]
     (⟨cid 2, some fVb⟩ : CC Int Int) EventPriority.Default fVb 0 0 rfl⟩

end EventBusSpec
